import Mathlib

/-!
Shallow embedding of the gaming-finance reconciliation core
(`src/app.py`): the dataset loader/validator `validate_file`, the
reconciliation engine `reconcile_metric` and `reconcile_login`, and the
run handler that orchestrates them.  Tables are ordered sequences of
rows; a row is an association list from column names to nullable integer
cell values (`none` models a null/NaN cell; metric values are modelled
as integers, so `diff` is exact integer subtraction).
-/

namespace Reconcile

/-- A row of a tabular dataset: column name ↦ nullable cell value. -/
abbrev Row := List (String × Option Int)

/-- Cell access: value of column `c` in row `r`; `none` when the column
is absent from the row or the stored cell is null. -/
def getCell (r : Row) (c : String) : Option Int :=
  (r.lookup c).join

/-- An in-memory table: ordered column names and ordered rows
(a pandas DataFrame as the loader produces it). -/
structure Table where
  cols : List String
  rows : List Row

/-- `CHUNK_SIZE` constant of `src/app.py` line 8. -/
def CHUNK_SIZE : Nat := 1000000

/-- Embeds `df[["PlayerID", metric]].dropna()` (`src/app.py` lines
36–37 and 59): project the frame to the key column and the metric
column and drop every row with a null in either projected column.
The result is a fresh frame, distinct from the input. -/
def projectDropna (df : Table) (metric : String) : Table :=
  ⟨["PlayerID", metric],
   df.rows.filterMap (fun r =>
     match getCell r "PlayerID", getCell r metric with
     | some k, some v => some [("PlayerID", some k), (metric, some v)]
     | _, _ => none)⟩

/-- Embeds `df.set_index("PlayerID", inplace=True)` applied to a
two-column projected frame (`src/app.py` lines 38–39 and 60): the frame
becomes a `PlayerID`-indexed sequence of `(key, metric value)` pairs in
row order.  (After `projectDropna` every row has both cells non-null,
so the `filterMap` drops nothing on the frames this is applied to.) -/
def setIndexPID (df : Table) (metric : String) : List (Int × Int) :=
  df.rows.filterMap (fun r =>
    match getCell r "PlayerID", getCell r metric with
    | some k, some v => some (k, v)
    | _, _ => none)

/-- The projected, null-dropped, key-indexed view of a table for one
metric: the composition of lines 36–39 of `src/app.py`. -/
def indexedMetric (df : Table) (metric : String) : List (Int × Int) :=
  setIndexPID (projectDropna df metric) metric

/-- Duplicate removal keeping the first occurrence, as a pandas `Index`
holds unique values in first-seen order. -/
def dedupF : List Int → List Int
  | [] => []
  | x :: xs => x :: (dedupF xs).filter (fun y => decide (y ≠ x))

/-- Embeds `pre_df.index.intersection(post_df.index)` (`src/app.py`
line 41): the keys of the first (pre) index that also occur in the
second, in the first index's iteration order, with duplicates removed. -/
def commonIds (preI postI : List (Int × Int)) : List Int :=
  dedupF ((preI.map Prod.fst).filter (fun k => decide (k ∈ postI.map Prod.fst)))

/-- Structural worker for `chunks`; the fuel argument is instantiated
with the list length, which always suffices for full peeling. -/
def chunksGo (c : Nat) : Nat → List Int → List (List Int)
  | _, [] => []
  | 0, l => [l]
  | fuel + 1, x :: xs => (x :: xs.take (c - 1)) :: chunksGo c fuel (xs.drop (c - 1))

/-- Embeds the slicing loop `for i in range(0, len(common_ids),
CHUNK_SIZE): common_ids[i:i + CHUNK_SIZE]` (`src/app.py` lines 44–45):
split a list into consecutive batches of `c` elements (the final batch
may be shorter).  For `c ≥ 1` this is exactly the Python slicing. -/
def chunks (c : Nat) (l : List Int) : List (List Int) :=
  chunksGo c l.length l

/-- Embeds `df.loc[chunk_ids]` on a key-indexed frame (`src/app.py`
lines 46–47): for each requested key, in request order, every row of
the frame bearing that key, in frame order. -/
def locRows (df : List (Int × Int)) (ids : List Int) : List (Int × Int) :=
  ids.flatMap (fun k => df.filter (fun p => decide (p.1 = k)))

/-- One row of `pre_chunk.join(post_chunk, lsuffix="_pre",
rsuffix="_post")`: the key, the `{metric}_pre` cell and the
`{metric}_post` cell. -/
structure MergedRow where
  pid : Int
  preV : Int
  postV : Int
deriving DecidableEq, Repr

/-- Embeds the index join of `src/app.py` line 49: each pre row is
matched with every post row carrying the same key, preserving the pre
chunk's row order (on the chunks built by `reconcile_metric` each key
is present on both sides, so the left join never produces an unmatched
row and coincides with this inner join). -/
def joinChunk (pre_chunk post_chunk : List (Int × Int)) : List MergedRow :=
  pre_chunk.flatMap (fun p =>
    (post_chunk.filter (fun q => decide (q.1 = p.1))).map
      (fun q => ⟨p.1, p.2, q.2⟩))

/-- One exception row of `reconcile_metric`'s output.  `preV`, `postV`
and `diff` model the `{metric}_pre`, `{metric}_post` and `diff`
columns; `metric` models the `Metric` column. -/
structure ExRow where
  pid : Int
  preV : Int
  postV : Int
  diff : Int
  metric : String
deriving DecidableEq, Repr

/-- Embeds `src/app.py` lines 49–52 for one batch: join the two chunks
on the key, compute `diff = pre − post`, keep only rows with
`diff != 0`, and tag each kept row with the metric name. -/
def chunkResult (metric : String) (pre_chunk post_chunk : List (Int × Int)) :
    List ExRow :=
  (joinChunk pre_chunk post_chunk).filterMap (fun m =>
    if m.preV - m.postV ≠ 0 then
      some ⟨m.pid, m.preV, m.postV, m.preV - m.postV, metric⟩
    else none)

/-- The contribution of one common key to the exception table: the pre
rows bearing the key joined against the post rows bearing it, diffed,
filtered and tagged.  The batched pipeline of `reconcile_metric` is
proved below to concatenate exactly these contributions in
`commonIds` order. -/
def perKey (preI postI : List (Int × Int)) (metric : String) (k : Int) :
    List ExRow :=
  chunkResult metric (preI.filter (fun p => decide (p.1 = k)))
    (postI.filter (fun q => decide (q.1 = k)))

/-- Embeds `reconcile_metric` (`src/app.py` lines 31–55) with the batch
size as a parameter (the source fixes it to `CHUNK_SIZE`).  The first
component models the diagnostic messages appended to the log, the
second the rows of the returned exception table. -/
def reconcileMetricChunked (chunkSize : Nat) (pre_df post_df : Table)
    (metric : String) : List String × List ExRow :=
  if metric ∉ pre_df.cols ∨ metric ∉ post_df.cols then
    (["Metric " ++ metric ++ " not found in one of the files"], [])
  else
    let preI := setIndexPID (projectDropna pre_df metric) metric
    let postI := setIndexPID (projectDropna post_df metric) metric
    let common_ids := commonIds preI postI
    let result := (chunks chunkSize common_ids).map (fun chunk_ids =>
      chunkResult metric (locRows preI chunk_ids) (locRows postI chunk_ids))
    ([], result.flatten)

/-- `reconcile_metric` as in the source: batch size `CHUNK_SIZE`. -/
def reconcile_metric (pre_df post_df : Table) (metric : String) :
    List String × List ExRow :=
  reconcileMetricChunked CHUNK_SIZE pre_df post_df metric

/-- One presence-only exception row of `reconcile_login`'s output. -/
structure LoginRow where
  pid : Int
  metric : String
  status : String
deriving DecidableEq, Repr

/-- Embeds `reconcile_login` (`src/app.py` lines 58–62): project the
post table to `{PlayerID, LastLoginDate}`, drop nulls, index by key,
and emit one `Missing Post` row for each pre key absent from that
index, in `pre_ids` order. -/
def reconcile_login (pre_ids : List Int) (post_df : Table) : List LoginRow :=
  let postI := setIndexPID (projectDropna post_df "LastLoginDate") "LastLoginDate"
  (pre_ids.filter (fun pid => decide (pid ∉ postI.map Prod.fst))).map
    (fun pid => ⟨pid, "LastLoginDate", "Missing Post"⟩)

/-- The non-null `PlayerID` values of a table, in row order (used to
state the assumed key-uniqueness precondition, and to model
`pre_df["PlayerID"].tolist()`; null keys are not modelled there, the
reconciled rows all carry concrete keys). -/
def keysOf (df : Table) : List Int :=
  df.rows.filterMap (fun r => getCell r "PlayerID")

/-- Embeds `validate_file` (`src/app.py` lines 17–28).  The raw source
is abstracted as `Option Table`: `none` models a file pandas cannot
parse at all (the `except` path), `some t` a parseable file.  The
sample read `pd.read_csv(path, nrows=100)` sees the same header and the
first 100 rows.  `required_cols = []` models the `None`/empty default
(Python truthiness skips the check).  Returns the diagnostic messages
and the fully loaded table (or `none` on failure). -/
def validate_file (src : Option Table) (required_cols : List String) :
    List String × Option Table :=
  match src with
  | none => (["Validation failed"], none)
  | some t =>
    let sample : Table := ⟨t.cols, t.rows.take 100⟩
    let colLog := ["Columns: " ++ String.intercalate ", " sample.cols]
    if required_cols ≠ [] then
      let missing := required_cols.filter (fun c => decide (c ∉ sample.cols))
      if missing ≠ [] then
        (colLog ++ ["Warning: Missing columns: " ++ String.intercalate ", " missing],
         some t)
      else (colLog, some t)
    else (colLog, some t)

/-- A row of the concatenated exception report: either a numeric-diff
exception or a presence-only exception (the union-of-columns shape of
the final report). -/
inductive ExOut where
  | diffRow : ExRow → ExOut
  | statusRow : LoginRow → ExOut
deriving DecidableEq, Repr

/-- Outcome of one press of "Run Reconciliation": either the distinct
fatal pre-file validation failure (`src/app.py` line 111), or a
produced exception report. -/
inductive RunResult where
  | fatalPreError : RunResult
  | report : List ExOut → RunResult
deriving DecidableEq, Repr

/-- The `InteractiveBalance` contribution to the report (`src/app.py`
lines 115–116): absent post file disables the metric. -/
def intPart (pre_df : Table) : Option Table → List ExOut
  | some d => (reconcile_metric pre_df d "InteractiveBalance").2.map ExOut.diffRow
  | none => []

/-- The `SubscriptionBalance` contribution (`src/app.py` lines 117–118). -/
def subPart (pre_df : Table) : Option Table → List ExOut
  | some d => (reconcile_metric pre_df d "SubscriptionBalance").2.map ExOut.diffRow
  | none => []

/-- The `LastLoginDate` contribution (`src/app.py` lines 119–122):
value reconciliation when both login files loaded, presence-only check
against the pre-balance keys when only the post login file loaded,
nothing otherwise. -/
def loginPart (pre_df : Table) :
    Option Table → Option Table → List ExOut
  | some pl, some d => (reconcile_metric pl d "LastLoginDate").2.map ExOut.diffRow
  | none, some d => (reconcile_login (keysOf pre_df) d).map ExOut.statusRow
  | _, none => []

/-- Embeds the "Run Reconciliation" handler (`src/app.py` lines
104–124) after loading: each argument is the corresponding
`validate_file` outcome (`none` = not uploaded or failed to load).  A
failed required pre file aborts with the distinct fatal result before
any reconciliation; otherwise the per-metric contributions are
concatenated in the fixed metric order. -/
def runReconciliation (preT preLoginT intT subT loginT : Option Table) :
    RunResult :=
  match preT with
  | none => RunResult.fatalPreError
  | some pre_df =>
    RunResult.report
      (intPart pre_df intT ++ subPart pre_df subT ++
        loginPart pre_df preLoginT loginT)

/-! ### Heap model of the in-place operations

`reconcile_metric` rebinds its local `pre_df`/`post_df` names to fresh
projected frames (`df[[...]].dropna()` allocates a copy) and then
applies `set_index(..., inplace=True)` to those fresh frames only.  To
state that the caller's tables are untouched we model pandas objects in
an explicit store addressed by natural-number references. -/

/-- A pandas object held in the store: a plain frame, or a frame that
has been re-indexed by `PlayerID` down to one metric column. -/
inductive PObj where
  | frame : Table → PObj
  | keyed : List (Int × Int) → PObj

/-- The heap of live pandas objects. -/
abbrev Store := List PObj

/-- Dereference (out-of-range reads yield an empty frame; the embedded
code only reads references it was given or allocated). -/
def Store.read (s : Store) (i : Nat) : PObj :=
  s.getD i (PObj.frame ⟨[], []⟩)

/-- In-place update of the object at reference `i`. -/
def Store.write (s : Store) (i : Nat) (v : PObj) : Store :=
  s.set i v

/-- Allocate a fresh object; returns the new store and the reference. -/
def Store.alloc (s : Store) (v : PObj) : Store × Nat :=
  (s ++ [v], s.length)

/-- View a store object as a plain frame. -/
def PObj.asFrame : PObj → Table
  | PObj.frame t => t
  | PObj.keyed _ => ⟨[], []⟩

/-- View a store object as a key-indexed frame. -/
def PObj.asKeyed : PObj → List (Int × Int)
  | PObj.keyed l => l
  | PObj.frame _ => []

/-- Store-passing embedding of `reconcile_metric` (`src/app.py` lines
31–55): the input tables are passed by reference; the projections
allocate fresh objects and the `inplace=True` re-indexings write only
to those fresh references. -/
def reconcileMetricSt (s : Store) (preRef postRef : Nat) (metric : String) :
    Store × List ExRow :=
  let pre_df := (s.read preRef).asFrame
  let post_df := (s.read postRef).asFrame
  if metric ∉ pre_df.cols ∨ metric ∉ post_df.cols then
    (s, [])
  else
    let a1 := s.alloc (PObj.frame (projectDropna pre_df metric))
    let s1 := a1.1
    let pRef := a1.2
    let a2 := s1.alloc (PObj.frame (projectDropna post_df metric))
    let s2 := a2.1
    let qRef := a2.2
    let s3 := s2.write pRef
      (PObj.keyed (setIndexPID ((s2.read pRef).asFrame) metric))
    let s4 := s3.write qRef
      (PObj.keyed (setIndexPID ((s3.read qRef).asFrame) metric))
    let preI := (s4.read pRef).asKeyed
    let postI := (s4.read qRef).asKeyed
    (s4, ((chunks CHUNK_SIZE (commonIds preI postI)).map (fun chunk_ids =>
      chunkResult metric (locRows preI chunk_ids) (locRows postI chunk_ids))).flatten)

/-- Store-passing embedding of `reconcile_login` (`src/app.py` lines
58–62): the projection allocates a fresh object and the in-place
re-indexing writes only to it. -/
def reconcileLoginSt (s : Store) (pre_ids : List Int) (postRef : Nat) :
    Store × List LoginRow :=
  let post_df := (s.read postRef).asFrame
  let a1 := s.alloc (PObj.frame (projectDropna post_df "LastLoginDate"))
  let s1 := a1.1
  let qRef := a1.2
  let s2 := s1.write qRef
    (PObj.keyed (setIndexPID ((s1.read qRef).asFrame) "LastLoginDate"))
  let postI := (s2.read qRef).asKeyed
  (s2, (pre_ids.filter (fun pid => decide (pid ∉ postI.map Prod.fst))).map
    (fun pid => ⟨pid, "LastLoginDate", "Missing Post"⟩))

/-! ### Sanity checks on the worked examples of the specification -/

/-- Pre table of the spec's worked example:
`{(1, 100), (2, 200), (3, null)}` for metric `Balance`. -/
def exPre : Table :=
  ⟨["PlayerID", "Balance"],
   [[("PlayerID", some 1), ("Balance", some 100)],
    [("PlayerID", some 2), ("Balance", some 200)],
    [("PlayerID", some 3), ("Balance", none)]]⟩

/-- Post table of the spec's worked example: `{(1, 100), (2, 250)}`. -/
def exPost : Table :=
  ⟨["PlayerID", "Balance"],
   [[("PlayerID", some 1), ("Balance", some 100)],
    [("PlayerID", some 2), ("Balance", some 250)]]⟩

example :
    (reconcile_metric exPre exPost "Balance").2 =
      [⟨2, 200, 250, -50, "Balance"⟩] := by decide

/-- Post activity table of the spec's second worked example. -/
def exLoginPost : Table :=
  ⟨["PlayerID", "LastLoginDate"],
   [[("PlayerID", some 1), ("LastLoginDate", some 20240101)],
    [("PlayerID", some 3), ("LastLoginDate", some 20240102)]]⟩

example :
    reconcile_login [1, 2, 3] exLoginPost =
      [⟨2, "LastLoginDate", "Missing Post"⟩] := by decide

/-! ### Basic lemmas: batching, duplicate removal, key intersection -/

lemma chunksGo_eq_of_le (c : Nat) :
    ∀ (f₁ f₂ : Nat) (l : List Int), l.length ≤ f₁ → l.length ≤ f₂ →
      chunksGo c f₁ l = chunksGo c f₂ l := by
  intro f₁
  induction f₁ with
  | zero =>
    intro f₂ l h1 _
    cases l with
    | nil => cases f₂ <;> rfl
    | cons x xs => simp at h1
  | succ f ih =>
    intro f₂ l h1 h2
    cases l with
    | nil => cases f₂ <;> rfl
    | cons x xs =>
      cases f₂ with
      | zero => simp at h2
      | succ g =>
        simp only [chunksGo]
        congr 1
        apply ih
        · rw [List.length_drop]
          simp only [List.length_cons] at h1
          omega
        · rw [List.length_drop]
          simp only [List.length_cons] at h2
          omega

lemma chunks_nil (c : Nat) : chunks c [] = [] := rfl

lemma chunks_cons (c : Nat) (x : Int) (xs : List Int) :
    chunks c (x :: xs) =
      (x :: xs.take (c - 1)) :: chunks c (xs.drop (c - 1)) := by
  show chunksGo c (xs.length + 1) (x :: xs) = _
  simp only [chunksGo]
  congr 1
  apply chunksGo_eq_of_le
  · rw [List.length_drop]; omega
  · exact Nat.le_refl _

/-- Induction along the batch-peeling structure of `chunks`. -/
lemma chunks_induction (c : Nat) {P : List Int → Prop}
    (hnil : P [])
    (hcons : ∀ x xs, P (xs.drop (c - 1)) → P (x :: xs)) :
    ∀ l, P l := by
  intro l
  generalize hn : l.length = n
  induction n using Nat.strong_induction_on generalizing l with
  | _ n ih =>
    cases l with
    | nil => exact hnil
    | cons x xs =>
      apply hcons
      apply ih ((xs.drop (c - 1)).length) _ _ rfl
      subst hn
      rw [List.length_drop]
      simp only [List.length_cons]
      omega

/-- The batches concatenate back to the whole key list: batching loses
and reorders nothing. -/
lemma chunks_flatten (c : Nat) (l : List Int) : (chunks c l).flatten = l := by
  induction l using chunks_induction c with
  | hnil => rfl
  | hcons x xs ih =>
    rw [chunks_cons, List.flatten_cons, ih, List.cons_append,
      List.take_append_drop]

lemma chunks_flatMap {β : Type} (c : Nat) (f : Int → List β) (l : List Int) :
    (chunks c l).flatMap (fun ch => ch.flatMap f) = l.flatMap f := by
  conv_rhs => rw [← chunks_flatten c l]
  rw [List.flatten_eq_flatMap, List.flatMap_assoc]
  rfl

lemma sublist_of_mem_chunks {c : Nat} {ch l : List Int}
    (h : ch ∈ chunks c l) : ch.Sublist l := by
  induction l using chunks_induction c with
  | hnil => rw [chunks_nil] at h; cases h
  | hcons x xs ih =>
    rw [chunks_cons, List.mem_cons] at h
    rcases h with rfl | h
    · exact (List.take_sublist _ _).cons₂ x
    · exact ((ih h).trans (List.drop_sublist _ _)).trans
        (List.sublist_cons_self x xs)

lemma mem_dedupF {a : Int} : ∀ {l : List Int}, a ∈ dedupF l ↔ a ∈ l := by
  intro l
  induction l with
  | nil => simp [dedupF]
  | cons x xs ih =>
    by_cases hax : a = x <;>
      simp [dedupF, List.mem_filter, ih, hax]

lemma nodup_dedupF : ∀ l : List Int, (dedupF l).Nodup
  | [] => by simp [dedupF]
  | x :: xs => by
    simp only [dedupF, List.nodup_cons]
    refine ⟨fun hx => ?_, (nodup_dedupF xs).filter _⟩
    have := List.of_mem_filter hx
    simp at this

lemma dedupF_sublist : ∀ l : List Int, (dedupF l).Sublist l
  | [] => by simp [dedupF]
  | x :: xs =>
    ((List.filter_sublist _).trans (dedupF_sublist xs)).cons₂ x

lemma mem_commonIds {preI postI : List (Int × Int)} {k : Int} :
    k ∈ commonIds preI postI ↔
      k ∈ preI.map Prod.fst ∧ k ∈ postI.map Prod.fst := by
  simp [commonIds, mem_dedupF, List.mem_filter]

lemma nodup_commonIds (preI postI : List (Int × Int)) :
    (commonIds preI postI).Nodup :=
  nodup_dedupF _

lemma commonIds_sublist (preI postI : List (Int × Int)) :
    (commonIds preI postI).Sublist (preI.map Prod.fst) :=
  (dedupF_sublist _).trans (List.filter_sublist _)

/-! ### Lemmas about `loc` on key-indexed frames -/

lemma locRows_filter_of_not_mem {df : List (Int × Int)} {ids : List Int}
    {k : Int} (h : k ∉ ids) :
    (locRows df ids).filter (fun q => decide (q.1 = k)) = [] := by
  rw [List.filter_eq_nil_iff]
  intro q hq
  rw [locRows, List.mem_flatMap] at hq
  obtain ⟨a, ha, hqa⟩ := hq
  have h1 := List.of_mem_filter hqa
  simp only [decide_eq_true_eq] at h1 ⊢
  intro hk
  exact h (hk ▸ h1 ▸ ha)

lemma locRows_filter_of_mem {df : List (Int × Int)} {ids : List Int}
    {k : Int} (hnd : ids.Nodup) (hk : k ∈ ids) :
    (locRows df ids).filter (fun q => decide (q.1 = k)) =
      df.filter (fun q => decide (q.1 = k)) := by
  induction ids with
  | nil => cases hk
  | cons a rest ih =>
    rw [List.nodup_cons] at hnd
    have hrec : (locRows df rest).filter (fun q => decide (q.1 = k)) =
        (rest.flatMap (fun i => df.filter (fun p => decide (p.1 = i)))).filter
          (fun q => decide (q.1 = k)) := rfl
    rw [locRows, List.flatMap_cons, List.filter_append]
    rcases List.mem_cons.mp hk with rfl | hk'
    · have h1 : (df.filter (fun p => decide (p.1 = k))).filter
          (fun q => decide (q.1 = k)) = df.filter (fun q => decide (q.1 = k)) := by
        rw [List.filter_filter]
        apply List.filter_congr
        intro x _
        by_cases hx : x.1 = k <;> simp [hx]
      have h2 := @locRows_filter_of_not_mem df rest k hnd.1
      rw [← hrec, h1, h2, List.append_nil]
    · have hka : k ≠ a := fun h => hnd.1 (h ▸ hk')
      have h1 : (df.filter (fun p => decide (p.1 = a))).filter
          (fun q => decide (q.1 = k)) = [] := by
        rw [List.filter_eq_nil_iff]
        intro q hq
        have := List.of_mem_filter hq
        simp only [decide_eq_true_eq] at this ⊢
        intro hqk
        exact hka (hqk ▸ this ▸ rfl)
      rw [← hrec, h1, List.nil_append]
      exact ih hnd.2 hk'

/-! ### Lemmas about the join/diff step and the per-key decomposition -/

lemma filter_key_eq_nil {l : List (Int × Int)} {k : Int}
    (h : k ∉ l.map Prod.fst) :
    l.filter (fun p => decide (p.1 = k)) = [] := by
  rw [List.filter_eq_nil_iff]
  intro p hp
  simp only [decide_eq_true_eq]
  intro hpk
  exact h (List.mem_map.mpr ⟨p, hp, hpk⟩)

lemma filter_self_of_fst {l : List (Int × Int)} {k : Int} :
    (l.filter (fun q => decide (q.1 = k))).filter (fun q => decide (q.1 = k)) =
      l.filter (fun q => decide (q.1 = k)) := by
  rw [List.filter_filter]
  apply List.filter_congr
  intro x _
  by_cases hx : x.1 = k <;> simp [hx]

lemma mem_joinChunk {preC postC : List (Int × Int)} {mr : MergedRow} :
    mr ∈ joinChunk preC postC ↔
      (mr.pid, mr.preV) ∈ preC ∧ (mr.pid, mr.postV) ∈ postC := by
  obtain ⟨pid, preV, postV⟩ := mr
  simp only [joinChunk, List.mem_flatMap, List.mem_map, List.mem_filter]
  constructor
  · rintro ⟨p, hp, q, ⟨hq, hq1⟩, heq⟩
    obtain ⟨rfl, rfl, rfl⟩ : p.1 = pid ∧ p.2 = preV ∧ q.2 = postV := by
      refine ⟨congrArg MergedRow.pid heq, congrArg MergedRow.preV heq,
        congrArg MergedRow.postV heq⟩
    simp only [decide_eq_true_eq] at hq1
    refine ⟨hp, ?_⟩
    rw [← hq1]
    exact hq
  · rintro ⟨hp, hq⟩
    exact ⟨(pid, preV), hp, (pid, postV), ⟨hq, by simp⟩, rfl⟩

lemma mem_perKey {preI postI : List (Int × Int)} {m : String} {k : Int}
    {er : ExRow} :
    er ∈ perKey preI postI m k ↔
      er.pid = k ∧ (k, er.preV) ∈ preI ∧ (k, er.postV) ∈ postI ∧
        er.diff = er.preV - er.postV ∧ er.diff ≠ 0 ∧ er.metric = m := by
  obtain ⟨pid, preV, postV, diff, met⟩ := er
  simp only [perKey, chunkResult, List.mem_filterMap]
  constructor
  · rintro ⟨mr, hmr, hf⟩
    rw [mem_joinChunk] at hmr
    obtain ⟨hpre, hpost⟩ := hmr
    by_cases hd : mr.preV - mr.postV ≠ 0
    · rw [if_pos hd] at hf
      simp only [Option.some.injEq, ExRow.mk.injEq] at hf
      obtain ⟨h1, h2, h3, h4, h5⟩ := hf
      have hk1 : mr.pid = k := by
        have := (List.mem_filter.mp hpre).2
        simpa using this
      have hpre' := (List.mem_filter.mp hpre).1
      have hpost' := (List.mem_filter.mp hpost).1
      refine ⟨h1 ▸ hk1, ?_, ?_, ?_, ?_, h5.symm⟩
      · rw [← h2, ← hk1]; exact hpre'
      · rw [← h3, ← hk1]; exact hpost'
      · rw [← h4, h2, h3]
      · rw [← h4]; exact hd
    · rw [if_neg hd] at hf
      cases hf
  · rintro ⟨rfl, hpre, hpost, rfl, hne, rfl⟩
    refine ⟨⟨pid, preV, postV⟩, ?_, ?_⟩
    · rw [mem_joinChunk]
      exact ⟨List.mem_filter.mpr ⟨hpre, by simp⟩,
        List.mem_filter.mpr ⟨hpost, by simp⟩⟩
    · simpa using hne

/-- Processing a batch of keys is the concatenation of the per-key
contributions, provided the batch has no repeated key. -/
lemma chunkResult_locRows (m : String) (preI postI : List (Int × Int))
    (ch : List Int) (hnd : ch.Nodup) :
    chunkResult m (locRows preI ch) (locRows postI ch) =
      ch.flatMap (perKey preI postI m) := by
  simp only [chunkResult, joinChunk, perKey]
  have hA : locRows preI ch =
      ch.flatMap (fun i => preI.filter (fun p => decide (p.1 = i))) := rfl
  rw [hA, List.flatMap_assoc, List.filterMap_flatMap]
  apply List.flatMap_congr
  intro k hk
  congr 1
  apply List.flatMap_congr
  intro p hp
  have hpk : p.1 = k := by
    have := List.of_mem_filter hp
    simpa using this
  rw [hpk, locRows_filter_of_mem hnd hk, filter_self_of_fst]

/-- The diagnostic component of `reconcile_metric` does not depend on
the batch size. -/
lemma reconcileMetricChunked_fst (c : Nat) (pre_df post_df : Table)
    (m : String) :
    (reconcileMetricChunked c pre_df post_df m).1 =
      if m ∉ pre_df.cols ∨ m ∉ post_df.cols then
        ["Metric " ++ m ++ " not found in one of the files"]
      else [] := by
  rw [reconcileMetricChunked]
  by_cases h : m ∉ pre_df.cols ∨ m ∉ post_df.cols
  · rw [if_pos h, if_pos h]
  · rw [if_neg h, if_neg h]

/-- Master decomposition: with the metric present in both tables, the
batched output is the concatenation, over the common keys in pre-index
order, of the per-key join/diff contributions — for every batch size. -/
lemma reconcileMetricChunked_spec (c : Nat) (pre_df post_df : Table)
    (m : String) (h : m ∈ pre_df.cols ∧ m ∈ post_df.cols) :
    (reconcileMetricChunked c pre_df post_df m).2 =
      (commonIds (indexedMetric pre_df m) (indexedMetric post_df m)).flatMap
        (perKey (indexedMetric pre_df m) (indexedMetric post_df m) m) := by
  simp only [indexedMetric]
  rw [reconcileMetricChunked,
    if_neg (by simp only [not_or, not_not]; exact h)]
  dsimp only
  rw [← List.flatMap_def]
  have hcong : ∀ ch ∈ chunks c
      (commonIds (setIndexPID (projectDropna pre_df m) m)
        (setIndexPID (projectDropna post_df m) m)),
      chunkResult m (locRows (setIndexPID (projectDropna pre_df m) m) ch)
          (locRows (setIndexPID (projectDropna post_df m) m) ch) =
        ch.flatMap (perKey (setIndexPID (projectDropna pre_df m) m)
          (setIndexPID (projectDropna post_df m) m) m) := by
    intro ch hch
    exact chunkResult_locRows m _ _ ch
      ((nodup_commonIds _ _).sublist (sublist_of_mem_chunks hch))
  rw [List.flatMap_congr hcong, chunks_flatMap]

/-! ### Row-level characterization of the projected indexed view -/

/-- Projecting, dropping nulls and indexing extracts exactly the rows
whose key and metric cells are both non-null. -/
lemma indexedMetric_eq (t : Table) (m : String) :
    indexedMetric t m = t.rows.filterMap (fun r =>
      match getCell r "PlayerID", getCell r m with
      | some k, some v => some (k, v)
      | _, _ => none) := by
  rw [indexedMetric, setIndexPID, projectDropna]
  dsimp only
  rw [List.filterMap_filterMap]
  apply List.filterMap_congr
  intro r _
  rcases h1 : getCell r "PlayerID" with _ | k <;>
    rcases h2 : getCell r m with _ | v <;> try rfl
  by_cases hm : m = "PlayerID"
  · subst hm
    rw [h1] at h2
    obtain rfl : k = v := by simpa using h2
    simp [getCell, List.lookup]
  · have hmb : (m == "PlayerID") = false := beq_eq_false_iff_ne.mpr hm
    simp [getCell, List.lookup, hmb]

lemma mem_indexedMetric {t : Table} {m : String} {k v : Int} :
    (k, v) ∈ indexedMetric t m ↔
      ∃ r ∈ t.rows, getCell r "PlayerID" = some k ∧ getCell r m = some v := by
  rw [indexedMetric_eq, List.mem_filterMap]
  constructor
  · rintro ⟨r, hr, h⟩
    refine ⟨r, hr, ?_⟩
    rcases h1 : getCell r "PlayerID" with _ | k' <;>
      rcases h2 : getCell r m with _ | v' <;> rw [h1, h2] at h <;>
      simp only [Option.some.injEq, Prod.mk.injEq, reduceCtorEq] at h
    obtain ⟨rfl, rfl⟩ := h
    exact ⟨rfl, rfl⟩
  · rintro ⟨r, hr, h1, h2⟩
    exact ⟨r, hr, by rw [h1, h2]⟩

lemma mem_keys_indexedMetric {t : Table} {m : String} {k : Int} :
    k ∈ (indexedMetric t m).map Prod.fst ↔
      ∃ r ∈ t.rows, getCell r "PlayerID" = some k ∧ getCell r m ≠ none := by
  rw [List.mem_map]
  constructor
  · rintro ⟨⟨k', v⟩, hm, hfst⟩
    obtain rfl : k' = k := hfst
    obtain ⟨r, hr, hp, hv⟩ := mem_indexedMetric.mp hm
    exact ⟨r, hr, hp, by rw [hv]; exact Option.some_ne_none v⟩
  · rintro ⟨r, hr, hp, hv⟩
    obtain ⟨v, hv'⟩ := Option.ne_none_iff_exists'.mp hv
    exact ⟨(k, v), mem_indexedMetric.mpr ⟨r, hr, hp, hv'⟩, rfl⟩

lemma filterMap_sublist_of_imp {α β : Type} (l : List α) {f g : α → Option β}
    (h : ∀ a b, f a = some b → g a = some b) :
    (l.filterMap f).Sublist (l.filterMap g) := by
  induction l with
  | nil => simp
  | cons a t ih =>
    rw [List.filterMap_cons, List.filterMap_cons]
    rcases hf : f a with _ | b
    · rcases hg : g a with _ | c
      · exact ih
      · exact ih.trans (List.sublist_cons_self c _)
    · rw [h a b hf]
      exact ih.cons₂ b

/-- The keys of the projected indexed view form a subsequence of the
table's non-null `PlayerID` column. -/
lemma keys_indexedMetric_sublist (t : Table) (m : String) :
    ((indexedMetric t m).map Prod.fst).Sublist (keysOf t) := by
  rw [indexedMetric_eq, List.map_filterMap, keysOf]
  apply filterMap_sublist_of_imp
  intro r k h
  rcases h1 : getCell r "PlayerID" with _ | k' <;>
    rcases h2 : getCell r m with _ | v <;> rw [h1, h2] at h <;> simp at h
  simp [h]

/-- Key uniqueness in a table carries over to its indexed view. -/
lemma nodup_keys_indexedMetric {t : Table} {m : String}
    (h : (keysOf t).Nodup) : ((indexedMetric t m).map Prod.fst).Nodup :=
  h.sublist (keys_indexedMetric_sublist t m)

/-! ### Uniqueness of keys in the output -/

lemma filter_key_length_le_one {l : List (Int × Int)}
    (h : (l.map Prod.fst).Nodup) (k : Int) :
    (l.filter (fun p => decide (p.1 = k))).length ≤ 1 := by
  induction l with
  | nil => simp
  | cons p t ih =>
    rw [List.map_cons, List.nodup_cons] at h
    by_cases hp : p.1 = k
    · rw [List.filter_cons_of_pos (by simp [hp])]
      have ht : t.filter (fun q => decide (q.1 = k)) = [] :=
        filter_key_eq_nil (by rw [← hp]; exact h.1)
      simp [ht]
    · rw [List.filter_cons_of_neg (by simp [hp])]
      exact ih h.2

lemma joinChunk_length_le_one {A B : List (Int × Int)}
    (hA : A.length ≤ 1) (hB : B.length ≤ 1) :
    (joinChunk A B).length ≤ 1 := by
  rcases A with _ | ⟨p, _ | ⟨q, t⟩⟩
  · simp [joinChunk]
  · simp only [joinChunk, List.flatMap_cons, List.flatMap_nil,
      List.append_nil, List.length_map]
    exact (List.length_filter_le _ _).trans hB
  · simp at hA

lemma perKey_length_le_one {preI postI : List (Int × Int)} {m : String}
    {k : Int} (h1 : (preI.map Prod.fst).Nodup)
    (h2 : (postI.map Prod.fst).Nodup) :
    (perKey preI postI m k).length ≤ 1 := by
  rw [perKey, chunkResult]
  exact (List.length_filterMap_le _ _).trans
    (joinChunk_length_le_one (filter_key_length_le_one h1 k)
      (filter_key_length_le_one h2 k))

/-- With unique keys on both sides, a key contributes no row or exactly
one row bearing that key. -/
lemma perKey_pids {preI postI : List (Int × Int)} {m : String} {k : Int}
    (h1 : (preI.map Prod.fst).Nodup) (h2 : (postI.map Prod.fst).Nodup) :
    (perKey preI postI m k).map ExRow.pid = [] ∨
      (perKey preI postI m k).map ExRow.pid = [k] := by
  have hlen := @perKey_length_le_one preI postI m k h1 h2
  rcases hp : perKey preI postI m k with _ | ⟨er, rest⟩
  · left; rfl
  · rw [hp] at hlen
    simp only [List.length_cons] at hlen
    obtain rfl : rest = [] := List.length_eq_zero.mp (by omega)
    right
    have her : er ∈ perKey preI postI m k := by
      rw [hp]; exact List.mem_cons_self er []
    have hpid := (mem_perKey.mp her).1
    simp [hpid]

lemma nodup_flatMap_sub {l : List Int} (hl : l.Nodup) {g : Int → List Int}
    (hg : ∀ k ∈ l, g k = [] ∨ g k = [k]) : (l.flatMap g).Nodup := by
  induction l with
  | nil => simp
  | cons a rest ih =>
    rw [List.flatMap_cons, List.nodup_append]
    rw [List.nodup_cons] at hl
    refine ⟨?_, ih hl.2 (fun k hk => hg k (List.mem_cons_of_mem a hk)), ?_⟩
    · rcases hg a (List.mem_cons_self a rest) with h | h <;> simp [h]
    · intro x hx hx'
      rcases hg a (List.mem_cons_self a rest) with h | h
      · rw [h] at hx; cases hx
      · rw [h] at hx
        have hxa : x = a := by simpa using hx
        obtain ⟨b, hb, hxb⟩ := List.mem_flatMap.mp hx'
        rcases hg b (List.mem_cons_of_mem a hb) with h' | h'
        · rw [h'] at hxb; cases hxb
        · rw [h'] at hxb
          have hxb' : x = b := by simpa using hxb
          apply hl.1
          rw [← hxa, hxb']
          exact hb

/-! ### Loader and store helper lemmas -/

lemma validate_file_some_snd (t : Table) (req : List String) :
    (validate_file (some t) req).2 = some t := by
  rw [validate_file]
  dsimp only
  split
  · split <;> rfl
  · rfl

lemma store_read_alloc_lt {s : Store} {v : PObj} {i : Nat}
    (h : i < s.length) : (s.alloc v).1.read i = s.read i := by
  simp only [Store.alloc, Store.read]
  rw [List.getD_eq_getElem?_getD, List.getD_eq_getElem?_getD,
    List.getElem?_append, if_pos h]

lemma store_read_write_ne {s : Store} {i j : Nat} {v : PObj} (h : i ≠ j) :
    (s.write i v).read j = s.read j := by
  simp only [Store.write, Store.read]
  rw [List.getD_eq_getElem?_getD, List.getD_eq_getElem?_getD,
    List.getElem?_set_ne h]

lemma two_alloc_two_write_read {s : Store} {v1 v2 w1 w2 : PObj} {i : Nat}
    (h : i < s.length) :
    ((((s.alloc v1).1.alloc v2).1.write (s.alloc v1).2 w1).write
        ((s.alloc v1).1.alloc v2).2 w2).read i = s.read i := by
  have l1 : (s.alloc v1).2 = s.length := rfl
  have l2 : ((s.alloc v1).1.alloc v2).2 = s.length + 1 := by
    simp [Store.alloc]
  rw [store_read_write_ne (by rw [l2]; omega),
    store_read_write_ne (by rw [l1]; omega),
    store_read_alloc_lt (by simp only [Store.alloc, List.length_append]; omega),
    store_read_alloc_lt h]

lemma one_alloc_one_write_read {s : Store} {v w : PObj} {i : Nat}
    (h : i < s.length) :
    ((s.alloc v).1.write (s.alloc v).2 w).read i = s.read i := by
  have l1 : (s.alloc v).2 = s.length := rfl
  rw [store_read_write_ne (by rw [l1]; omega), store_read_alloc_lt h]

/-! ### Claim theorems -/

/-- Claim C1: for tables with unique keys and the metric present in
both, `reconcile_metric` emits a numeric-diff exception row for a key
iff the key has a non-null value for the metric in both tables and the
pre value minus the post value is non-zero; rows with a null on either
side are excluded entirely. -/
theorem reconcile_metric_exception_iff (pre_df post_df : Table)
    (metric : String) (k : Int)
    (hm : metric ∈ pre_df.cols ∧ metric ∈ post_df.cols)
    (hpid : "PlayerID" ∈ pre_df.cols ∧ "PlayerID" ∈ post_df.cols)
    (hmp : metric ≠ "PlayerID")
    (hu1 : (keysOf pre_df).Nodup) (hu2 : (keysOf post_df).Nodup) :
    (∃ er ∈ (reconcile_metric pre_df post_df metric).2, er.pid = k) ↔
      ∃ p q, (∃ r ∈ pre_df.rows,
          getCell r "PlayerID" = some k ∧ getCell r metric = some p) ∧
        (∃ r ∈ post_df.rows,
          getCell r "PlayerID" = some k ∧ getCell r metric = some q) ∧
        p - q ≠ 0 := by
  rw [reconcile_metric, reconcileMetricChunked_spec _ _ _ _ hm]
  constructor
  · rintro ⟨er, her, hpidk⟩
    obtain ⟨k', hk', hper⟩ := List.mem_flatMap.mp her
    obtain ⟨hp1, hpre, hpost, hd, hne, _⟩ := mem_perKey.mp hper
    obtain rfl : k' = k := by rw [← hp1]; exact hpidk
    refine ⟨er.preV, er.postV, mem_indexedMetric.mp hpre,
      mem_indexedMetric.mp hpost, ?_⟩
    rw [← hd]; exact hne
  · rintro ⟨p, q, hp, hq, hpq⟩
    have hpre := mem_indexedMetric.mpr hp
    have hpost := mem_indexedMetric.mpr hq
    refine ⟨⟨k, p, q, p - q, metric⟩, ?_, rfl⟩
    apply List.mem_flatMap.mpr
    refine ⟨k, ?_, ?_⟩
    · exact mem_commonIds.mpr
        ⟨List.mem_map.mpr ⟨(k, p), hpre, rfl⟩,
         List.mem_map.mpr ⟨(k, q), hpost, rfl⟩⟩
    · exact mem_perKey.mpr ⟨rfl, hpre, hpost, rfl, hpq, rfl⟩

theorem reconcile_metric_exception_iff_witness :
    (("Balance" ∈ exPre.cols ∧ "Balance" ∈ exPost.cols) ∧
      ("PlayerID" ∈ exPre.cols ∧ "PlayerID" ∈ exPost.cols) ∧
      ("Balance" : String) ≠ "PlayerID" ∧
      (keysOf exPre).Nodup ∧ (keysOf exPost).Nodup) ∧
    ((∃ er ∈ (reconcile_metric exPre exPost "Balance").2, er.pid = 2) ↔
      ∃ p q, (∃ r ∈ exPre.rows,
          getCell r "PlayerID" = some 2 ∧ getCell r "Balance" = some p) ∧
        (∃ r ∈ exPost.rows,
          getCell r "PlayerID" = some 2 ∧ getCell r "Balance" = some q) ∧
        p - q ≠ 0) :=
  ⟨⟨by decide, by decide, by decide, by decide, by decide⟩,
    reconcile_metric_exception_iff exPre exPost "Balance" 2
      (by decide) (by decide) (by decide) (by decide) (by decide)⟩

/-- Claim C2: for any two positive batch sizes, the batched
reconciliation produces identical diagnostics and identical exception
rows in identical order - batching is observationally irrelevant. -/
theorem reconcile_metric_batch_size_irrelevant (pre_df post_df : Table)
    (metric : String) (b1 b2 : Nat) (hb1 : 0 < b1) (hb2 : 0 < b2) :
    reconcileMetricChunked b1 pre_df post_df metric =
      reconcileMetricChunked b2 pre_df post_df metric := by
  by_cases h : metric ∈ pre_df.cols ∧ metric ∈ post_df.cols
  · rw [Prod.ext_iff]
    constructor
    · rw [reconcileMetricChunked_fst, reconcileMetricChunked_fst]
    · rw [reconcileMetricChunked_spec b1 _ _ _ h,
        reconcileMetricChunked_spec b2 _ _ _ h]
  · have h' : metric ∉ pre_df.cols ∨ metric ∉ post_df.cols := by tauto
    rw [reconcileMetricChunked, reconcileMetricChunked, if_pos h', if_pos h']

theorem reconcile_metric_batch_size_irrelevant_witness :
    0 < 1 ∧ 0 < 2 ∧
      reconcileMetricChunked 1 exPre exPost "Balance" =
        reconcileMetricChunked 2 exPre exPost "Balance" :=
  ⟨by decide, by decide,
    reconcile_metric_batch_size_irrelevant exPre exPost "Balance" 1 2
      (by decide) (by decide)⟩

/-- Claim C4: a metric absent from either table's column set yields the
diagnostic message and an empty exception table - a soft no-op, not a
failure. -/
theorem reconcile_metric_missing_metric_soft (pre_df post_df : Table)
    (metric : String) (h : metric ∉ pre_df.cols ∨ metric ∉ post_df.cols) :
    reconcile_metric pre_df post_df metric =
      (["Metric " ++ metric ++ " not found in one of the files"], []) := by
  rw [reconcile_metric, reconcileMetricChunked, if_pos h]

theorem reconcile_metric_missing_metric_soft_witness :
    (("Bonus" : String) ∉ exPre.cols ∨ ("Bonus" : String) ∉ exPost.cols) ∧
      reconcile_metric exPre exPost "Bonus" =
        (["Metric " ++ "Bonus" ++ " not found in one of the files"], []) :=
  ⟨by decide,
    reconcile_metric_missing_metric_soft exPre exPost "Bonus" (by decide)⟩

/-- Claim C5: the output rows follow the iteration order of the pre
table's index restricted to the common keys: the common-key list is the
pre-index key order filtered to keys of the post index (a subsequence
of the pre index), and the output is the in-order concatenation of the
per-key contributions, each contribution carrying its own key. -/
theorem reconcile_metric_output_order (pre_df post_df : Table)
    (metric : String)
    (hm : metric ∈ pre_df.cols ∧ metric ∈ post_df.cols) :
    (reconcile_metric pre_df post_df metric).2 =
      (commonIds (indexedMetric pre_df metric)
          (indexedMetric post_df metric)).flatMap
        (perKey (indexedMetric pre_df metric)
          (indexedMetric post_df metric) metric) ∧
    (commonIds (indexedMetric pre_df metric)
        (indexedMetric post_df metric)).Sublist
      ((indexedMetric pre_df metric).map Prod.fst) ∧
    (∀ k, k ∈ commonIds (indexedMetric pre_df metric)
        (indexedMetric post_df metric) ↔
      k ∈ (indexedMetric pre_df metric).map Prod.fst ∧
        k ∈ (indexedMetric post_df metric).map Prod.fst) ∧
    ∀ k er, er ∈ perKey (indexedMetric pre_df metric)
        (indexedMetric post_df metric) metric k → er.pid = k :=
  ⟨reconcileMetricChunked_spec CHUNK_SIZE _ _ _ hm,
   commonIds_sublist _ _,
   fun _ => mem_commonIds,
   fun _ _ h => (mem_perKey.mp h).1⟩

theorem reconcile_metric_output_order_witness :
    ("Balance" ∈ exPre.cols ∧ "Balance" ∈ exPost.cols) ∧
      (reconcile_metric exPre exPost "Balance").2 =
        (commonIds (indexedMetric exPre "Balance")
            (indexedMetric exPost "Balance")).flatMap
          (perKey (indexedMetric exPre "Balance")
            (indexedMetric exPost "Balance") "Balance") :=
  ⟨by decide,
    (reconcile_metric_output_order exPre exPost "Balance" (by decide)).1⟩

/-- Claim C6: every emitted exception row carries the pre value, the
post value, a `diff` equal to the exact subtraction of the two (with
exact inequality to zero as the mismatch criterion), and the metric
name; the pre/post values are the non-null cells of actual rows of the
input tables bearing the row's key. -/
theorem reconcile_metric_row_fields (pre_df post_df : Table)
    (metric : String) (er : ExRow)
    (her : er ∈ (reconcile_metric pre_df post_df metric).2) :
    er.metric = metric ∧ er.diff = er.preV - er.postV ∧ er.diff ≠ 0 ∧
      (∃ r ∈ pre_df.rows, getCell r "PlayerID" = some er.pid ∧
        getCell r metric = some er.preV) ∧
      (∃ r ∈ post_df.rows, getCell r "PlayerID" = some er.pid ∧
        getCell r metric = some er.postV) := by
  by_cases hm : metric ∈ pre_df.cols ∧ metric ∈ post_df.cols
  · rw [reconcile_metric, reconcileMetricChunked_spec _ _ _ _ hm] at her
    obtain ⟨k, _, hper⟩ := List.mem_flatMap.mp her
    obtain ⟨hp1, hpre, hpost, hd, hne, hmet⟩ := mem_perKey.mp hper
    rw [← hp1] at hpre hpost
    exact ⟨hmet, hd, hne, mem_indexedMetric.mp hpre,
      mem_indexedMetric.mp hpost⟩
  · rw [reconcile_metric, reconcileMetricChunked, if_pos (by tauto)] at her
    cases her

theorem reconcile_metric_row_fields_witness :
    ((⟨2, 200, 250, -50, "Balance"⟩ : ExRow) ∈
        (reconcile_metric exPre exPost "Balance").2) ∧
      ((⟨2, 200, 250, -50, "Balance"⟩ : ExRow).metric = "Balance" ∧
        (⟨2, 200, 250, -50, "Balance"⟩ : ExRow).diff =
          (⟨2, 200, 250, -50, "Balance"⟩ : ExRow).preV -
            (⟨2, 200, 250, -50, "Balance"⟩ : ExRow).postV ∧
        (⟨2, 200, 250, -50, "Balance"⟩ : ExRow).diff ≠ 0 ∧
        (∃ r ∈ exPre.rows, getCell r "PlayerID" =
            some (⟨2, 200, 250, -50, "Balance"⟩ : ExRow).pid ∧
          getCell r "Balance" =
            some (⟨2, 200, 250, -50, "Balance"⟩ : ExRow).preV) ∧
        (∃ r ∈ exPost.rows, getCell r "PlayerID" =
            some (⟨2, 200, 250, -50, "Balance"⟩ : ExRow).pid ∧
          getCell r "Balance" =
            some (⟨2, 200, 250, -50, "Balance"⟩ : ExRow).postV)) :=
  ⟨by decide,
    reconcile_metric_row_fields exPre exPost "Balance"
      ⟨2, 200, 250, -50, "Balance"⟩ (by decide)⟩

/-- Claim C10: with `PlayerID` unique within each input table, every
key appears in at most one output row of a single
`reconcile_metric` invocation. -/
theorem reconcile_metric_unique_pids (pre_df post_df : Table)
    (metric : String)
    (hu1 : (keysOf pre_df).Nodup) (hu2 : (keysOf post_df).Nodup) :
    ((reconcile_metric pre_df post_df metric).2.map ExRow.pid).Nodup := by
  by_cases hm : metric ∈ pre_df.cols ∧ metric ∈ post_df.cols
  · rw [reconcile_metric, reconcileMetricChunked_spec _ _ _ _ hm,
      List.map_flatMap]
    exact nodup_flatMap_sub (nodup_commonIds _ _)
      (fun k _ => perKey_pids (nodup_keys_indexedMetric hu1)
        (nodup_keys_indexedMetric hu2))
  · rw [reconcile_metric, reconcileMetricChunked, if_pos (by tauto)]
    simp

theorem reconcile_metric_unique_pids_witness :
    ((keysOf exPre).Nodup ∧ (keysOf exPost).Nodup) ∧
      ((reconcile_metric exPre exPost "Balance").2.map ExRow.pid).Nodup :=
  ⟨⟨by decide, by decide⟩,
    reconcile_metric_unique_pids exPre exPost "Balance"
      (by decide) (by decide)⟩

/-- Claim C3: `reconcile_login` returns exactly one
`Missing Post` row for each pre key (given without repetition) absent
from the set of post-table keys having a non-null `LastLoginDate`, no
other rows, in `pre_keys` order. -/
theorem reconcile_login_missing_keys (pre_ids : List Int) (post_df : Table)
    (hcols : "PlayerID" ∈ post_df.cols ∧ "LastLoginDate" ∈ post_df.cols)
    (hnd : pre_ids.Nodup) :
    reconcile_login pre_ids post_df =
      (pre_ids.filter (fun k => decide (¬ ∃ r ∈ post_df.rows,
          getCell r "PlayerID" = some k ∧
            getCell r "LastLoginDate" ≠ none))).map
        (fun k => ⟨k, "LastLoginDate", "Missing Post"⟩) ∧
    ((reconcile_login pre_ids post_df).map LoginRow.pid).Nodup := by
  have hfe : reconcile_login pre_ids post_df =
      (pre_ids.filter (fun k => decide (¬ ∃ r ∈ post_df.rows,
          getCell r "PlayerID" = some k ∧
            getCell r "LastLoginDate" ≠ none))).map
        (fun k => ⟨k, "LastLoginDate", "Missing Post"⟩) := by
    rw [reconcile_login]
    congr 1
    apply List.filter_congr
    intro k _
    rw [decide_eq_decide]
    exact not_congr mem_keys_indexedMetric
  refine ⟨hfe, ?_⟩
  rw [hfe, List.map_map]
  have hid : (LoginRow.pid ∘ fun k =>
      (⟨k, "LastLoginDate", "Missing Post"⟩ : LoginRow)) = id := rfl
  rw [hid, List.map_id]
  exact hnd.filter _

theorem reconcile_login_missing_keys_witness :
    (("PlayerID" ∈ exLoginPost.cols ∧
        "LastLoginDate" ∈ exLoginPost.cols) ∧
      ([1, 2, 3] : List Int).Nodup) ∧
    reconcile_login [1, 2, 3] exLoginPost =
      (([1, 2, 3] : List Int).filter (fun k => decide
          (¬ ∃ r ∈ exLoginPost.rows, getCell r "PlayerID" = some k ∧
            getCell r "LastLoginDate" ≠ none))).map
        (fun k => ⟨k, "LastLoginDate", "Missing Post"⟩) :=
  ⟨⟨by decide, by decide⟩,
    (reconcile_login_missing_keys [1, 2, 3] exLoginPost
      (by decide) (by decide)).1⟩

/-- Claim C7: a failed required pre-balances load yields the distinct
fatal outcome (never an exception report); a missing or failed optional
source only removes that metric's contribution, leaving the other
contributions of the concatenated report unchanged. -/
theorem run_aborts_on_pre_failure (preLoginT intT subT loginT : Option Table)
    (p d : Table) :
    runReconciliation none preLoginT intT subT loginT =
      RunResult.fatalPreError ∧
    (∀ rows, RunResult.fatalPreError ≠ RunResult.report rows) ∧
    runReconciliation (some p) preLoginT (some d) subT loginT =
      RunResult.report (intPart p (some d) ++ subPart p subT ++
        loginPart p preLoginT loginT) ∧
    runReconciliation (some p) preLoginT none subT loginT =
      RunResult.report (subPart p subT ++ loginPart p preLoginT loginT) ∧
    runReconciliation (some p) preLoginT intT subT none =
      RunResult.report (intPart p intT ++ subPart p subT) := by
  refine ⟨rfl, fun rows h => RunResult.noConfusion h, rfl, rfl, ?_⟩
  cases preLoginT <;>
    simp [runReconciliation, loginPart]

/-- Claim C8: a parseable source with required columns missing from the
sample is still fully loaded: the missing columns are reported in a
diagnostic listing exactly them, the full table is returned, and only
an unparseable source produces the failure result. -/
theorem validate_file_missing_columns_soft (t : Table) (req : List String)
    (hmiss : req.filter (fun c => decide (c ∉ t.cols)) ≠ []) :
    (validate_file (some t) req).2 = some t ∧
    ("Warning: Missing columns: " ++ String.intercalate ", "
        (req.filter (fun c => decide (c ∉ t.cols))))
      ∈ (validate_file (some t) req).1 ∧
    ∀ s : Option Table, ((validate_file s req).2 = none ↔ s = none) := by
  have hreq : req ≠ [] := by
    intro h
    rw [h] at hmiss
    simp at hmiss
  refine ⟨validate_file_some_snd t req, ?_, ?_⟩
  · rw [validate_file]
    dsimp only
    rw [if_pos hreq, if_pos hmiss]
    simp
  · intro s
    cases s with
    | none => simp [validate_file]
    | some t' =>
      rw [validate_file_some_snd]

theorem validate_file_missing_columns_soft_witness :
    (["PlayerID", "Bonus"].filter
        (fun c => decide (c ∉ exPre.cols)) ≠ []) ∧
      (validate_file (some exPre) ["PlayerID", "Bonus"]).2 = some exPre ∧
      ("Warning: Missing columns: " ++ String.intercalate ", "
          (["PlayerID", "Bonus"].filter (fun c => decide (c ∉ exPre.cols))))
        ∈ (validate_file (some exPre) ["PlayerID", "Bonus"]).1 :=
  ⟨by decide,
    (validate_file_missing_columns_soft exPre ["PlayerID", "Bonus"]
      (by decide)).1,
    (validate_file_missing_columns_soft exPre ["PlayerID", "Bonus"]
      (by decide)).2.1⟩

/-- Claim C9: the reconciliation operations never modify the tables
they are given: the projections allocate fresh objects and the
`inplace=True` re-indexings write only to those fresh references, so
the stored inputs read back unchanged. -/
theorem reconcile_preserves_inputs (s : Store) (preRef postRef : Nat)
    (metric : String) (pre_ids : List Int)
    (h1 : preRef < s.length) (h2 : postRef < s.length) :
    (reconcileMetricSt s preRef postRef metric).1.read preRef =
      s.read preRef ∧
    (reconcileMetricSt s preRef postRef metric).1.read postRef =
      s.read postRef ∧
    (reconcileLoginSt s pre_ids postRef).1.read postRef =
      s.read postRef := by
  refine ⟨?_, ?_, ?_⟩
  · rw [reconcileMetricSt]
    dsimp only
    split
    · rfl
    · exact two_alloc_two_write_read h1
  · rw [reconcileMetricSt]
    dsimp only
    split
    · rfl
    · exact two_alloc_two_write_read h2
  · rw [reconcileLoginSt]
    dsimp only
    exact one_alloc_one_write_read h2

theorem reconcile_preserves_inputs_witness :
    ((0 : Nat) < ([PObj.frame exPre, PObj.frame exPost] : Store).length ∧
      (1 : Nat) < ([PObj.frame exPre, PObj.frame exPost] : Store).length) ∧
    Store.read (reconcileMetricSt [PObj.frame exPre, PObj.frame exPost] 0 1
        "Balance").1 0 =
      Store.read [PObj.frame exPre, PObj.frame exPost] 0 :=
  ⟨⟨by decide, by decide⟩,
    (reconcile_preserves_inputs [PObj.frame exPre, PObj.frame exPost]
      0 1 "Balance" [1, 2] (by decide) (by decide)).1⟩

end Reconcile
